import Mathlib

/-!
Verification of `src/services/replaceable-event-requester.ts` from the
nostrudel repository: coordinate encoding, the per-relay replaceable-event
loader (desired / in-flight bookkeeping, filter batching, last-writer-wins
cells) and the central loader service (central cells, durable-cache
dedupe, save and prune).

Strings are embedded as `List Char`, JS `Map` / `Set` as insertion-ordered
association lists / lists, and timestamps (both event `created_at` and
wall-clock dates, in seconds) as `Int`.
-/

-- ### Definitions

/-- Character for a decimal digit `n < 10`, as produced by JS number-to-string
conversion (`'0'` is code point 48). -/
def digitCh (n : Nat) : Char := Char.ofNat (48 + n)

/-- Decimal digit test on a character (code points 48–57). -/
def isDigitCh (c : Char) : Bool := 48 ≤ c.toNat && c.toNat ≤ 57

/-- Numeric value of a digit character. -/
def digitVal (c : Char) : Nat := c.toNat - 48

/-- Decimal rendering of a natural number, fuel-driven so that it reduces by
kernel computation; `natToChars` below always supplies enough fuel.
Models the JS template-literal conversion of the non-negative `kind`. -/
def natToCharsAux : Nat → Nat → List Char
  | 0, _ => []
  | fuel + 1, n =>
    if n < 10 then [digitCh n]
    else natToCharsAux fuel (n / 10) ++ [digitCh (n % 10)]

/-- Decimal rendering of a natural number (JS `${kind}`). -/
def natToChars (n : Nat) : List Char := natToCharsAux (n + 1) n

/-- Embedding of JS `parseInt` on the strings reachable here: reads the
leading run of decimal digits as a base-10 number (0 when there is none;
the non-numeric `NaN` case is unreachable because every parsed string
starts with the digits written by `natToChars`). -/
def charsToNat (s : List Char) : Nat :=
  (s.takeWhile isDigitCh).foldl (fun acc c => acc * 10 + digitVal c) 0

/-- Embedding of JS `cord.split(":")`: splits a string at every colon,
yielding at least one (possibly empty) piece. -/
def splitOnColon : List Char → List (List Char)
  | [] => [[]]
  | c :: rest =>
    if c = ':' then [] :: splitOnColon rest
    else
      match splitOnColon rest with
      | [] => [[c]]
      | h :: t => (c :: h) :: t

/-- `createCoordinate` from the source: renders `${kind}:${pubkey}${d ? ":" + d : ""}`.
A present but empty discriminator is falsy in JS and is rendered like an
absent one. -/
def createCoordinate (kind : Nat) (pubkey : List Char) (d : Option (List Char)) : List Char :=
  natToChars kind ++ (':' :: (pubkey ++
    (match d with
     | some dv => if dv.isEmpty then [] else ':' :: dv
     | none => [])))

/-- Kind component as the loader's filter rebuild recovers it:
`parseInt` of the piece before the first colon. -/
def cordKind (cord : List Char) : Nat :=
  charsToNat ((splitOnColon cord).getD 0 [])

/-- Identity component as the loader's filter rebuild recovers it: the piece
between the first and second colon (the source's destructuring asserts it
exists). -/
def cordPubkey (cord : List Char) : List Char :=
  (splitOnColon cord).getD 1 []

/-- Discriminator component as the loader's filter rebuild uses it: the third
piece when present, with the JS `if (d)` truthiness test folding an empty
string into absence. -/
def cordD (cord : List Char) : Option (List Char) :=
  match (splitOnColon cord).get? 2 with
  | some dv => if dv.isEmpty then none else some dv
  | none => none

/-- Parsing a coordinate string exactly the way the loader's filter rebuild
does: `(parseInt of first piece, second piece, truthy third piece)`. -/
def parseCoordinate (cord : List Char) : Nat × List Char × Option (List Char) :=
  (cordKind cord, cordPubkey cord, cordD cord)

/-- Embedding of a replaceable nostr event: `id` is the opaque event id
(distinguishing distinct events), `kind` / `pubkey` the coordinate parts,
`d` the value of the first `d` tag when present, `created_at` the creation
timestamp in seconds. -/
structure NostrEvent where
  id : Nat
  kind : Nat
  pubkey : List Char
  d : Option (List Char)
  created_at : Int
deriving DecidableEq

/-- Modelled from the spec: `getEventCoordinate` (imported from
`helpers/nostr/events`, not part of the sample) derives an event's
coordinate from its own kind, author and discriminator tag, serialized as
`kind:identity[:discriminator]` — the same encoding as `createCoordinate`. -/
def getEventCoordinate (event : NostrEvent) : List Char :=
  createCoordinate event.kind event.pubkey event.d

/-- Modelled from the spec: a `Subject` (from `classes/subject`, not part of
the sample) is a Latest-Value Cell: `value` holds the last published object
(`undefined` before the first publish); `next` publishes a new value to all
observers and stores it in `value`. -/
structure Subject where
  value : Option NostrEvent
deriving DecidableEq

/-- Publishing on a cell (`Subject.next` in the source). -/
def Subject.next (s : Subject) (event : NostrEvent) : Subject :=
  { s with value := some event }

/-- Cell map update at one coordinate. Cell maps are embedded as total
functions defaulting to the empty cell, which models the `SuperMap`
get-or-create behaviour (an absent key and a fresh empty `Subject` are
indistinguishable to this code). -/
def updateCell (m : List Char → Subject) (cord : List Char) (s : Subject) :
    List Char → Subject :=
  fun c => if c = cord then s else m c

/-- First-match association-list lookup (JS `Map.get`). -/
def lookupKey {κ α : Type} [DecidableEq κ] : List (κ × α) → κ → Option α
  | [], _ => none
  | (k', v') :: t, k => if k' = k then some v' else lookupKey t k

/-- Association-list update (JS `Map.set`): replaces the first binding in
place, otherwise appends (JS maps keep insertion order). -/
def setKey {κ α : Type} [DecidableEq κ] : List (κ × α) → κ → α → List (κ × α)
  | [], k, v => [(k, v)]
  | (k', v') :: t, k, v => if k' = k then (k, v) :: t else (k', v') :: setKey t k v

/-- Subscription state of the relay connection (`NostrSubscription.OPEN` /
`CLOSED`). -/
inductive SubState where
  | opened
  | closed
deriving DecidableEq

/-- Embedding of a nostr query filter as the loader builds it: `kinds` is the
singleton kind list; `authors` and the `"#d"` tag list start out absent and
are created on first push. -/
structure NostrQuery where
  kinds : List Nat
  authors : Option (List (List Char))
  dTags : Option (List (List Char))
deriving DecidableEq

/-- State of one `ReplaceableEventRelayLoader`: the per-coordinate cells
(`events`), the Desired Set (`requestNext`, a JS `Set` in insertion order),
the In-Flight Set (`requested`, a JS `Map` from coordinate to request date,
in seconds), and the subscription's applied query and open/closed state. -/
structure LoaderState where
  events : List Char → Subject
  requestNext : List (List Char)
  requested : List (List Char × Int)
  query : Option (List NostrQuery)
  subState : SubState

/-- Fresh loader: no cells hold values, both sets empty, subscription closed
with no query applied. -/
def initLoader : LoaderState :=
  { events := fun _ => { value := none }
    requestNext := []
    requested := []
    query := none
    subState := SubState.closed }

/-- `ReplaceableEventRelayLoader.handleEvent`: derive the event's coordinate,
unconditionally delete it from the in-flight map, then publish into the
local cell only when the cell is empty or the event is strictly newer. -/
def RelayLoader.handleEvent (s : LoaderState) (event : NostrEvent) : LoaderState :=
  let cord := getEventCoordinate event
  let requested := s.requested.filter (fun p => !decide (p.1 = cord))
  let sub := s.events cord
  match sub.value with
  | none =>
      { s with requested := requested, events := updateCell s.events cord (sub.next event) }
  | some current =>
      if event.created_at > current.created_at then
        { s with requested := requested, events := updateCell s.events cord (sub.next event) }
      else
        { s with requested := requested }

/-- `ReplaceableEventRelayLoader.handleEOSE`: the relay says it has nothing
left; clear the whole in-flight map. -/
def RelayLoader.handleEOSE (s : LoaderState) : LoaderState :=
  { s with requested := [] }

/-- `ReplaceableEventRelayLoader.requestEvent`: return the cell for the
coordinate and, when it holds no value, add the coordinate to the Desired
Set. -/
def RelayLoader.requestEvent (s : LoaderState) (kind : Nat) (pubkey : List Char)
    (d : Option (List Char)) : LoaderState × Subject :=
  let cord := createCoordinate kind pubkey d
  let event := s.events cord
  if event.value.isNone then
    ({ s with requestNext :=
        if decide (cord ∈ s.requestNext) then s.requestNext else s.requestNext ++ [cord] },
     event)
  else
    (s, event)

/-- First loop of `ReplaceableEventRelayLoader.update`: move every desired
coordinate not already in flight into the in-flight map stamped with `now`;
the returned flag is the source's `needsUpdate` contribution (true iff any
coordinate was added). -/
def mergeDesired (now : Int) : List (List Char × Int) → List (List Char) →
    List (List Char × Int) × Bool
  | req, [] => (req, false)
  | req, cord :: rest =>
    if decide (cord ∈ req.map Prod.fst) then
      mergeDesired now req rest
    else
      let r := mergeDesired now (req ++ [(cord, now)]) rest
      (r.1, true)

/-- One step of the filter-rebuild loop in `ReplaceableEventRelayLoader.update`:
split the coordinate string, `parseInt` the kind, get-or-create the record
for that kind, push the author, and push the `d` value when truthy. -/
def recordStep (recs : List (Nat × NostrQuery)) (cord : List Char) :
    List (Nat × NostrQuery) :=
  let kind := cordKind cord
  let q0 :=
    match lookupKey recs kind with
    | some q => q
    | none => { kinds := [kind], authors := none, dTags := none }
  let q1 := { q0 with authors := some (q0.authors.getD [] ++ [cordPubkey cord]) }
  let q2 :=
    match cordD cord with
    | some dv => { q1 with dTags := some (q1.dTags.getD [] ++ [dv]) }
    | none => q1
  setKey recs kind q2

/-- Sorted insertion by kind, modelling the ascending integer-key iteration
order of a JS object with numeric keys. -/
def insertByKind (p : Nat × NostrQuery) : List (Nat × NostrQuery) → List (Nat × NostrQuery)
  | [] => [p]
  | q :: t => if p.1 ≤ q.1 then p :: q :: t else q :: insertByKind p t

/-- Sort of the per-kind records by kind (JS `Object.values` iterates numeric
keys in ascending order). -/
def sortByKind : List (Nat × NostrQuery) → List (Nat × NostrQuery)
  | [] => []
  | p :: t => insertByKind p (sortByKind t)

/-- The query the loader's `update` builds from the in-flight map: one record
per kind, accumulated over the in-flight coordinates in map order, read out
as `Object.values` of the per-kind record table. -/
def buildFilters (requested : List (List Char × Int)) : List NostrQuery :=
  (sortByKind (requested.foldl (fun recs p => recordStep recs p.1) [])).map Prod.snd

/-- `ReplaceableEventRelayLoader.update`: move desired coordinates into the
in-flight map stamped `now`, clear the Desired Set, drop in-flight entries
whose stamp is older than one minute, and if anything changed either apply
the rebuilt query and open the subscription (non-empty in-flight map) or
close it (empty in-flight map). -/
def LoaderState.update (s : LoaderState) (now : Int) : LoaderState :=
  let m := mergeDesired now s.requested s.requestNext
  let requested2 := m.1.filter (fun p => !decide (p.2 < now - 60))
  let needsUpdate := m.2 || decide (requested2.length ≠ m.1.length)
  let qs : Option (List NostrQuery) × SubState :=
    if needsUpdate then
      if 0 < requested2.length then
        (some (buildFilters requested2), SubState.opened)
      else if s.subState = SubState.opened then
        (s.query, SubState.closed)
      else
        (s.query, s.subState)
    else
      (s.query, s.subState)
  { events := s.events
    requestNext := []
    requested := requested2
    query := qs.1
    subState := qs.2 }

/-- Outcome of the durable-store read `db.get("replaceableEvents", cord)`:
a cached record holding an event, a miss (no record, or a record without an
event), or a rejected read. -/
inductive DbReadResult where
  | found (event : NostrEvent)
  | missing
  | failure
deriving DecidableEq

/-- State of the `ReplaceableEventLoaderService`: the central per-coordinate
cells, the `loadCacheDedupe` map from coordinate to the identifier of the
promise of its outstanding (or failed) cache read, a counter allocating
promise identifiers, the set of store reads still in flight, and the log of
`saveToCache` puts issued so far (fire-and-forget writes). -/
structure ServiceState where
  events : List Char → Subject
  loadCacheDedupe : List (List Char × Nat)
  promiseCtr : Nat
  pendingReads : List Nat
  dbWrites : List (List Char × NostrEvent)

/-- Fresh service state. -/
def initService : ServiceState :=
  { events := fun _ => { value := none }
    loadCacheDedupe := []
    promiseCtr := 0
    pendingReads := []
    dbWrites := [] }

/-- `ReplaceableEventLoaderService.handleEvent`: last-writer-wins into the
central cell for the event's own coordinate; every accepted replacement
also issues a fire-and-forget durable-cache put. -/
def Service.handleEvent (s : ServiceState) (event : NostrEvent) : ServiceState :=
  let cord := getEventCoordinate event
  let sub := s.events cord
  match sub.value with
  | none =>
      { s with events := updateCell s.events cord (sub.next event)
               dbWrites := s.dbWrites ++ [(cord, event)] }
  | some current =>
      if event.created_at > current.created_at then
        { s with events := updateCell s.events cord (sub.next event)
                 dbWrites := s.dbWrites ++ [(cord, event)] }
      else
        s

/-- Delivery of one event from a source-local cell through the merge handler
that `requestEventFromRelays` installs with `connectWithHandler` (handler
body at lines 201–206 of the source; the connection mechanics of
`connectWithHandler` itself are modelled from the spec): accept into the
central cell only if empty or strictly newer, and persist on acceptance
under the requested coordinate's string key. -/
def relayMergeStep (s : ServiceState) (cord : List Char) (event : NostrEvent) :
    ServiceState :=
  let sub := s.events cord
  match sub.value with
  | none =>
      { s with events := updateCell s.events cord (sub.next event)
               dbWrites := s.dbWrites ++ [(cord, event)] }
  | some current =>
      if event.created_at > current.created_at then
        { s with events := updateCell s.events cord (sub.next event)
                 dbWrites := s.dbWrites ++ [(cord, event)] }
      else
        s

/-- `ReplaceableEventLoaderService.loadFromCache`: return the deduped promise
when one is registered for the coordinate; otherwise start a store read,
register its promise in the dedupe map, and return it. The result is
`(promise identifier, new state, whether a new store read was issued)`. -/
def loadFromCache (s : ServiceState) (cord : List Char) : Nat × ServiceState × Bool :=
  match lookupKey s.loadCacheDedupe cord with
  | some pid => (pid, s, false)
  | none =>
      let pid := s.promiseCtr
      (pid,
       { s with promiseCtr := pid + 1
                pendingReads := s.pendingReads ++ [pid]
                loadCacheDedupe := s.loadCacheDedupe ++ [(cord, pid)] },
       true)

/-- Settlement of the store read behind promise `pid` for coordinate `cord`,
as observed through the continuations chained in `loadFromCache` and
`requestEvent`. On fulfilment the `then` callback deletes the dedupe entry
and, when a cached event exists, feeds it to `Service.handleEvent`; the
returned flag says whether `requestEvent`'s continuation falls through to
`requestEventFromRelays` (cache miss). On rejection both chained callbacks
are skipped: the dedupe entry stays, nothing is handled, and no network
request is made. -/
def resolveCacheRead (s : ServiceState) (cord : List Char) (pid : Nat)
    (res : DbReadResult) : ServiceState × Bool :=
  match res with
  | DbReadResult.failure =>
      ({ s with pendingReads := s.pendingReads.filter (fun q => !decide (q = pid)) }, false)
  | DbReadResult.found event =>
      let s1 := { s with
        pendingReads := s.pendingReads.filter (fun q => !decide (q = pid))
        loadCacheDedupe := s.loadCacheDedupe.filter (fun p => !decide (p.1 = cord)) }
      (Service.handleEvent s1 event, false)
  | DbReadResult.missing =>
      ({ s with
        pendingReads := s.pendingReads.filter (fun q => !decide (q = pid))
        loadCacheDedupe := s.loadCacheDedupe.filter (fun p => !decide (p.1 = cord)) },
       true)

/-- Synchronous part of `ReplaceableEventLoaderService.requestEvent` (without
`alwaysRequest`): when the central cell is empty, start `loadFromCache` and
return the identifier of the promise whose settlement decides the network
fall-through. -/
def Service.requestEvent (s : ServiceState) (kind : Nat) (pubkey : List Char)
    (d : Option (List Char)) : ServiceState × Option Nat :=
  let cord := createCoordinate kind pubkey d
  let sub := s.events cord
  if sub.value.isNone then
    let r := loadFromCache s cord
    (r.2.1, some r.1)
  else
    (s, none)

/-- Record in the `replaceableEvents` object store: key `addr`, the event,
and the save timestamp (`created`, unix seconds). -/
structure DbEntry where
  addr : List Char
  event : NostrEvent
  created : Int
deriving DecidableEq

/-- `ReplaceableEventLoaderService.saveToCache`: `db.put` keyed on `addr`
replaces any entry with the same key and appends the new record. -/
def saveToCache (store : List DbEntry) (cord : List Char) (event : NostrEvent)
    (now : Int) : List DbEntry :=
  store.filter (fun en => !decide (en.addr = cord)) ++
    [{ addr := cord, event := event, created := now }]

/-- `ReplaceableEventLoaderService.pruneCache`: collect the keys of every
entry whose `created` index value is at most `now` minus one day
(`IDBKeyRange.upperBound` is inclusive), then delete those keys. -/
def pruneCache (store : List DbEntry) (now : Int) : List DbEntry :=
  let keys := (store.filter (fun en => decide (en.created ≤ now - 86400))).map
    (fun en => en.addr)
  store.filter (fun en => !decide (en.addr ∈ keys))

/-- One last-writer-wins acceptance step on an optional current value: accept
when empty or strictly newer. Both `handleEvent`s and the relay merge
handler apply exactly this function to their cell. -/
def lwwStep (cur : Option NostrEvent) (event : NostrEvent) : Option NostrEvent :=
  match cur with
  | none => some event
  | some current =>
      if event.created_at > current.created_at then some event else some current

/-- Acceptance predicate of the last-writer-wins merge: the incoming event
replaces the current value iff the cell is empty or the event is strictly
newer. -/
def lwwAccepts (cur : Option NostrEvent) (event : NostrEvent) : Bool :=
  match cur with
  | none => true
  | some current => decide (event.created_at > current.created_at)

/-- Sample coordinate `"0:a"`. -/
def cordA : List Char := createCoordinate 0 ['a'] none

/-- Sample event with timestamp 5. -/
def evA : NostrEvent := { id := 0, kind := 0, pubkey := ['a'], d := none, created_at := 5 }

/-- Second sample event with the same coordinate and timestamp as `evA` but a
different id. -/
def evB : NostrEvent := { id := 1, kind := 0, pubkey := ['a'], d := none, created_at := 5 }

/-- Sample event with the same coordinate and the strictly largest
timestamp 9. -/
def evC : NostrEvent := { id := 2, kind := 0, pubkey := ['a'], d := none, created_at := 9 }

/-- Concrete loader state for the C5 witness: one in-flight coordinate
`"0:a"` stamped at time 100, empty cells, nothing desired. -/
def loaderW : LoaderState :=
  { events := fun _ => { value := none }
    requestNext := []
    requested := [(cordA, 100)]
    query := none
    subState := SubState.closed }

/-- Concrete loader state for the C10 witness: coordinate `"0:a"` both
in-flight (stamped at 100) and desired again, cells empty. -/
def loaderW2 : LoaderState :=
  { events := fun _ => { value := none }
    requestNext := [cordA]
    requested := [(cordA, 100)]
    query := none
    subState := SubState.closed }

/-- Record table accumulated by the loader's filter-rebuild loop over the
in-flight map. -/
def recsOf (requested : List (List Char × Int)) : List (Nat × NostrQuery) :=
  requested.foldl (fun recs p => recordStep recs p.1) []

/-- One record update of the rebuild loop, as a function of the record
currently stored for the coordinate's kind (get-or-create, push author,
push truthy discriminator). -/
def nextRecord (cur : Option NostrQuery) (cord : List Char) : NostrQuery :=
  let q0 :=
    match cur with
    | some q => q
    | none => { kinds := [cordKind cord], authors := none, dTags := none }
  let q1 := { q0 with authors := some (q0.authors.getD [] ++ [cordPubkey cord]) }
  match cordD cord with
  | some dv => { q1 with dTags := some (q1.dTags.getD [] ++ [dv]) }
  | none => q1

/-- Specification-side description of the query filter for one kind: the
claim's "exactly one filter carrying that kind, the identities of every
in-flight coordinate of that kind as authors, and the discriminators of
every in-flight coordinate of that kind that has one as
discriminator-tag values". -/
def filterForKind (requested : List (List Char × Int)) (K : Nat) : NostrQuery :=
  let group := requested.filter (fun p => decide (cordKind p.1 = K))
  let ds := group.filterMap (fun p => cordD p.1)
  { kinds := [K]
    authors := some (group.map (fun p => cordPubkey p.1))
    dTags := if ds.isEmpty then none else some ds }

/-- Concrete loader state for the C6 witness: coordinate `"0:a"` desired and
nothing in flight. -/
def loaderW3 : LoaderState :=
  { events := fun _ => { value := none }
    requestNext := [cordA]
    requested := []
    query := none
    subState := SubState.closed }

-- ### Theorems

theorem digitCh_toNat (n : Nat) (h : n < 10) : (digitCh n).toNat = 48 + n := by
  interval_cases n <;> decide

theorem isDigitCh_digitCh (n : Nat) (h : n < 10) : isDigitCh (digitCh n) = true := by
  interval_cases n <;> decide

theorem digitCh_ne_colon (n : Nat) (h : n < 10) : digitCh n ≠ ':' := by
  interval_cases n <;> decide

theorem natToCharsAux_digits (fuel n : Nat) (h : n < fuel) :
    ∀ c ∈ natToCharsAux fuel n, isDigitCh c = true := by
  induction fuel generalizing n with
  | zero => omega
  | succ f ih =>
    intro c hc
    unfold natToCharsAux at hc
    by_cases h10 : n < 10
    · simp [h10] at hc
      subst hc
      exact isDigitCh_digitCh n h10
    · simp [h10, List.mem_append] at hc
      rcases hc with hc | hc
      · exact ih (n / 10) (by omega) c hc
      · subst hc
        exact isDigitCh_digitCh (n % 10) (by omega)

theorem natToChars_digits (n : Nat) : ∀ c ∈ natToChars n, isDigitCh c = true :=
  natToCharsAux_digits (n + 1) n (by omega)

theorem natToChars_ne_colon (n : Nat) : ∀ c ∈ natToChars n, c ≠ ':' := by
  intro c hc he
  have := natToChars_digits n c hc
  subst he
  simp [isDigitCh] at this

theorem takeWhile_all {p : Char → Bool} (l : List Char) (h : ∀ c ∈ l, p c = true) :
    l.takeWhile p = l := by
  induction l with
  | nil => rfl
  | cons c t ih =>
    have hc := h c (by simp)
    have ht := ih (fun x hx => h x (by simp [hx]))
    simp [List.takeWhile_cons, hc, ht]

theorem charsToNat_digitsOnly (l : List Char) (h : ∀ c ∈ l, isDigitCh c = true) :
    charsToNat l = l.foldl (fun acc c => acc * 10 + digitVal c) 0 := by
  unfold charsToNat
  rw [takeWhile_all l h]

theorem natToCharsAux_parse (fuel n : Nat) (h : n < fuel) :
    (natToCharsAux fuel n).foldl (fun acc c => acc * 10 + digitVal c) 0 = n := by
  induction fuel generalizing n with
  | zero => omega
  | succ f ih =>
    unfold natToCharsAux
    by_cases h10 : n < 10
    · simp [h10, List.foldl, digitVal, digitCh_toNat n h10]
    · simp only [h10, if_false, List.foldl_append, List.foldl]
      rw [ih (n / 10) (by omega)]
      have := digitCh_toNat (n % 10) (by omega)
      simp [digitVal, this]
      omega

theorem charsToNat_natToChars (n : Nat) : charsToNat (natToChars n) = n := by
  rw [charsToNat_digitsOnly _ (natToChars_digits n)]
  exact natToCharsAux_parse (n + 1) n (by omega)

theorem splitOnColon_ne_nil (s : List Char) : splitOnColon s ≠ [] := by
  cases s with
  | nil => simp [splitOnColon]
  | cons c rest =>
    unfold splitOnColon
    by_cases hc : c = ':'
    · simp [hc]
    · simp only [hc, if_false]
      cases splitOnColon rest <;> simp

theorem splitOnColon_noColon (s : List Char) (h : ∀ c ∈ s, c ≠ ':') :
    splitOnColon s = [s] := by
  induction s with
  | nil => rfl
  | cons c rest ih =>
    have hc : c ≠ ':' := h c (by simp)
    unfold splitOnColon
    rw [ih (fun x hx => h x (by simp [hx]))]
    simp [hc]

theorem splitOnColon_append (a b : List Char) (h : ∀ c ∈ a, c ≠ ':')
    (hd : List Char) (tl : List (List Char)) (hb : splitOnColon b = hd :: tl) :
    splitOnColon (a ++ b) = (a ++ hd) :: tl := by
  induction a with
  | nil => simpa using hb
  | cons c rest ih =>
    have hc : c ≠ ':' := h c (by simp)
    have hrec := ih (fun x hx => h x (by simp [hx]))
    simp only [List.cons_append]
    unfold splitOnColon
    rw [hrec]
    simp [hc]

theorem splitOnColon_colon_cons (b : List Char) :
    splitOnColon (':' :: b) = [] :: splitOnColon b := by
  simp [splitOnColon]

theorem splitOnColon_createCoordinate_none (kind : Nat) (pubkey : List Char)
    (hp : ∀ c ∈ pubkey, c ≠ ':') :
    splitOnColon (createCoordinate kind pubkey none) = [natToChars kind, pubkey] := by
  have hb : splitOnColon (':' :: pubkey) = [] :: [pubkey] := by
    rw [splitOnColon_colon_cons, splitOnColon_noColon pubkey hp]
  have h := splitOnColon_append (natToChars kind) (':' :: pubkey)
    (natToChars_ne_colon kind) [] [pubkey] hb
  show splitOnColon (natToChars kind ++ (':' :: (pubkey ++ []))) = _
  rw [List.append_nil, h]
  simp

theorem splitOnColon_createCoordinate_some (kind : Nat) (pubkey dv : List Char)
    (hp : ∀ c ∈ pubkey, c ≠ ':') (hd : ∀ c ∈ dv, c ≠ ':') (hne : dv ≠ []) :
    splitOnColon (createCoordinate kind pubkey (some dv)) = [natToChars kind, pubkey, dv] := by
  have hdv : dv.isEmpty = false := by
    cases dv with
    | nil => simp at hne
    | cons x xs => rfl
  have hb2 : splitOnColon (':' :: dv) = [] :: [dv] := by
    rw [splitOnColon_colon_cons, splitOnColon_noColon dv hd]
  have h2 := splitOnColon_append pubkey (':' :: dv) hp [] [dv] hb2
  have hb : splitOnColon (':' :: (pubkey ++ ':' :: dv)) = [] :: ((pubkey ++ []) :: [dv]) := by
    rw [splitOnColon_colon_cons, h2]
  have h := splitOnColon_append (natToChars kind) (':' :: (pubkey ++ ':' :: dv))
    (natToChars_ne_colon kind) [] ((pubkey ++ []) :: [dv]) hb
  show splitOnColon (natToChars kind ++ (':' :: (pubkey ++
      (if dv.isEmpty then [] else ':' :: dv)))) = _
  rw [hdv]
  simp only [Bool.false_eq_true, if_false]
  rw [h]
  simp

theorem parseCoordinate_createCoordinate (kind : Nat) (pubkey : List Char)
    (d : Option (List Char)) (hp : ∀ c ∈ pubkey, c ≠ ':')
    (hd : ∀ dv, d = some dv → (∀ c ∈ dv, c ≠ ':') ∧ dv ≠ []) :
    parseCoordinate (createCoordinate kind pubkey d) = (kind, pubkey, d) := by
  cases d with
  | none =>
    have h := splitOnColon_createCoordinate_none kind pubkey hp
    simp [parseCoordinate, cordKind, cordPubkey, cordD, h, charsToNat_natToChars]
  | some dv =>
    obtain ⟨hdc, hdne⟩ := hd dv rfl
    have h := splitOnColon_createCoordinate_some kind pubkey dv hp hdc hdne
    have hdv : dv.isEmpty = false := by
      cases dv with
      | nil => simp at hdne
      | cons x xs => rfl
    simp [parseCoordinate, cordKind, cordPubkey, cordD, h, charsToNat_natToChars, hdv]

theorem lookupKey_singleton_self {κ α : Type} [DecidableEq κ] (k : κ) (v : α) :
    lookupKey [(k, v)] k = some v := by
  simp [lookupKey]

theorem lookupKey_singleton_ne {κ α : Type} [DecidableEq κ] (c k : κ) (v : α)
    (h : c ≠ k) : lookupKey [(c, v)] k = none := by
  simp [lookupKey, h]

theorem lookupKey_append {κ α : Type} [DecidableEq κ] (l l' : List (κ × α)) (k : κ) :
    lookupKey (l ++ l') k =
      (match lookupKey l k with
       | some v => some v
       | none => lookupKey l' k) := by
  induction l with
  | nil => simp [lookupKey]
  | cons p t ih =>
    by_cases hp : p.1 = k
    · simp [lookupKey, hp]
    · simp [lookupKey, hp, ih]

theorem lookupKey_append_left {κ α : Type} [DecidableEq κ] (l l' : List (κ × α)) (k : κ)
    (v : α) (h : lookupKey l k = some v) : lookupKey (l ++ l') k = some v := by
  rw [lookupKey_append, h]

theorem lookupKey_append_right {κ α : Type} [DecidableEq κ] (l l' : List (κ × α)) (k : κ)
    (h : lookupKey l k = none) : lookupKey (l ++ l') k = lookupKey l' k := by
  rw [lookupKey_append, h]

theorem lookupKey_eq_none_iff {κ α : Type} [DecidableEq κ] (l : List (κ × α)) (k : κ) :
    lookupKey l k = none ↔ k ∉ l.map Prod.fst := by
  induction l with
  | nil => simp [lookupKey]
  | cons p t ih =>
    by_cases hp : p.1 = k
    · simp [lookupKey, hp]
    · simp [lookupKey, hp, ih, Ne.symm hp]

theorem mem_keys_of_lookupKey {κ α : Type} [DecidableEq κ] (l : List (κ × α)) (k : κ)
    (v : α) (h : lookupKey l k = some v) : k ∈ l.map Prod.fst := by
  by_contra hk
  rw [← lookupKey_eq_none_iff] at hk
  rw [h] at hk
  exact Option.noConfusion hk

theorem lookupKey_filter_self {κ α : Type} [DecidableEq κ] (l : List (κ × α)) (k : κ) :
    lookupKey (l.filter (fun p => !decide (p.1 = k))) k = none := by
  rw [lookupKey_eq_none_iff]
  intro hmem
  rcases List.mem_map.mp hmem with ⟨p, hp, hpk⟩
  rcases List.mem_filter.mp hp with ⟨_, hne⟩
  simp [hpk] at hne

theorem lookupKey_filter {κ α : Type} [DecidableEq κ] (l : List (κ × α))
    (f : κ × α → Bool) (k : κ) (v : α) (hnd : (l.map Prod.fst).Nodup)
    (h : lookupKey l k = some v) :
    lookupKey (l.filter f) k = if f (k, v) then some v else none := by
  induction l with
  | nil => simp [lookupKey] at h
  | cons p t ih =>
    have hcons : (p.1 :: t.map Prod.fst).Nodup := by simpa using hnd
    have hnd' : (t.map Prod.fst).Nodup := (List.nodup_cons.mp hcons).2
    by_cases hp : p.1 = k
    · have hv : p.2 = v := by
        simpa [lookupKey, hp] using h
      have hpkv : p = (k, v) := by
        cases p
        simp_all
      have hknott : k ∉ t.map Prod.fst := by
        have := (List.nodup_cons.mp hcons).1
        rwa [hp] at this
      have htnone : lookupKey (t.filter f) k = none := by
        rw [lookupKey_eq_none_iff]
        intro hmem
        rcases List.mem_map.mp hmem with ⟨q, hq, hqk⟩
        exact hknott (List.mem_map.mpr ⟨q, (List.mem_filter.mp hq).1, hqk⟩)
      by_cases hf : f p = true
      · rw [List.filter_cons_of_pos hf]
        rw [hpkv] at hf ⊢
        simp [lookupKey, hf]
      · rw [List.filter_cons_of_neg (by simpa using hf)]
        rw [hpkv] at hf
        simp only [Bool.not_eq_true] at hf
        rw [hf, if_neg (by simp)]
        exact htnone
    · have hlt : lookupKey t k = some v := by
        simpa [lookupKey, hp] using h
      by_cases hf : f p = true
      · rw [List.filter_cons_of_pos hf]
        simp only [lookupKey, if_neg hp]
        exact ih hnd' hlt
      · rw [List.filter_cons_of_neg (by simpa using hf)]
        exact ih hnd' hlt

theorem nodup_keys_filter {κ α : Type} (l : List (κ × α)) (f : κ × α → Bool)
    (hnd : (l.map Prod.fst).Nodup) : ((l.filter f).map Prod.fst).Nodup :=
  ((List.filter_sublist l).map Prod.fst).nodup hnd

theorem mergeDesired_lookup (now : Int) (req : List (List Char × Int))
    (rn : List (List Char)) (cord : List Char) (t : Int)
    (h : lookupKey req cord = some t) :
    lookupKey (mergeDesired now req rn).1 cord = some t := by
  induction rn generalizing req with
  | nil => exact h
  | cons c rest ih =>
    unfold mergeDesired
    by_cases hc : c ∈ req.map Prod.fst
    · rw [if_pos (by simp [hc])]
      exact ih req h
    · rw [if_neg (by simp [hc])]
      exact ih (req ++ [(c, now)]) (lookupKey_append_left req [(c, now)] cord t h)

theorem mergeDesired_lookup_new (now : Int) (req : List (List Char × Int))
    (rn : List (List Char)) (cord : List Char)
    (hmem : cord ∈ rn) (hnone : lookupKey req cord = none) :
    lookupKey (mergeDesired now req rn).1 cord = some now := by
  induction rn generalizing req with
  | nil => simp at hmem
  | cons c rest ih =>
    unfold mergeDesired
    by_cases hcc : cord = c
    · subst hcc
      have hnk : cord ∉ req.map Prod.fst := (lookupKey_eq_none_iff req cord).mp hnone
      rw [if_neg (by simp [hnk])]
      apply mergeDesired_lookup
      rw [lookupKey_append_right req [(cord, now)] cord hnone]
      exact lookupKey_singleton_self cord now
    · have hmem' : cord ∈ rest := by
        rcases List.mem_cons.mp hmem with h | h
        · exact absurd h hcc
        · exact h
      by_cases hc : c ∈ req.map Prod.fst
      · rw [if_pos (by simp [hc])]
        exact ih req hmem' hnone
      · rw [if_neg (by simp [hc])]
        apply ih (req ++ [(c, now)]) hmem'
        rw [lookupKey_append_right req [(c, now)] cord hnone]
        exact lookupKey_singleton_ne c cord now (fun h => hcc h.symm)

theorem mergeDesired_lookup_absent (now : Int) (req : List (List Char × Int))
    (rn : List (List Char)) (cord : List Char)
    (hnm : cord ∉ rn) (hnone : lookupKey req cord = none) :
    lookupKey (mergeDesired now req rn).1 cord = none := by
  induction rn generalizing req with
  | nil => exact hnone
  | cons c rest ih =>
    have hne : cord ≠ c := fun h => hnm (by simp [h])
    have hrest : cord ∉ rest := fun h => hnm (by simp [h])
    unfold mergeDesired
    by_cases hc : c ∈ req.map Prod.fst
    · rw [if_pos (by simp [hc])]
      exact ih req hrest hnone
    · rw [if_neg (by simp [hc])]
      apply ih (req ++ [(c, now)]) hrest
      rw [lookupKey_append_right req [(c, now)] cord hnone]
      exact lookupKey_singleton_ne c cord now (fun h => hne h.symm)

theorem mergeDesired_flag (now : Int) (req : List (List Char × Int))
    (rn : List (List Char)) (cord : List Char)
    (hmem : cord ∈ rn) (hnone : lookupKey req cord = none) :
    (mergeDesired now req rn).2 = true := by
  induction rn generalizing req with
  | nil => simp at hmem
  | cons c rest ih =>
    unfold mergeDesired
    by_cases hcc : cord = c
    · subst hcc
      have hnk : cord ∉ req.map Prod.fst := (lookupKey_eq_none_iff req cord).mp hnone
      rw [if_neg (by simp [hnk])]
    · have hmem' : cord ∈ rest := by
        rcases List.mem_cons.mp hmem with h | h
        · exact absurd h hcc
        · exact h
      by_cases hc : c ∈ req.map Prod.fst
      · rw [if_pos (by simp [hc])]
        exact ih req hmem' hnone
      · rw [if_neg (by simp [hc])]

theorem mergeDesired_nodup (now : Int) (req : List (List Char × Int))
    (rn : List (List Char)) (hnd : (req.map Prod.fst).Nodup) :
    ((mergeDesired now req rn).1.map Prod.fst).Nodup := by
  induction rn generalizing req with
  | nil => exact hnd
  | cons c rest ih =>
    unfold mergeDesired
    by_cases hc : c ∈ req.map Prod.fst
    · rw [if_pos (by simp [hc])]
      exact ih req hnd
    · rw [if_neg (by simp [hc])]
      apply ih (req ++ [(c, now)])
      rw [List.map_append]
      refine List.Nodup.append hnd (by simp) ?_
      intro a ha hb
      simp at hb
      subst hb
      exact hc ha

theorem lwwStep_accepts (cur : Option NostrEvent) (event : NostrEvent) :
    lwwStep cur event = if lwwAccepts cur event then some event else cur := by
  cases cur with
  | none => rfl
  | some current =>
    by_cases h : event.created_at > current.created_at
    · simp [lwwStep, lwwAccepts, h]
    · simp [lwwStep, lwwAccepts, h]

theorem relayLoader_handleEvent_cell (s : LoaderState) (ev : NostrEvent) (c : List Char) :
    ((RelayLoader.handleEvent s ev).events c).value =
      if c = getEventCoordinate ev then
        lwwStep ((s.events (getEventCoordinate ev)).value) ev
      else (s.events c).value := by
  cases hv : (s.events (getEventCoordinate ev)).value with
  | none =>
    by_cases hc : c = getEventCoordinate ev
    · simp [RelayLoader.handleEvent, lwwStep, hv, hc, updateCell, Subject.next]
    · simp [RelayLoader.handleEvent, hv, hc, updateCell]
  | some current =>
    by_cases hgt : ev.created_at > current.created_at
    · by_cases hc : c = getEventCoordinate ev
      · simp [RelayLoader.handleEvent, lwwStep, hv, hgt, hc, updateCell, Subject.next]
      · simp [RelayLoader.handleEvent, hv, hgt, hc, updateCell]
    · by_cases hc : c = getEventCoordinate ev
      · simp [RelayLoader.handleEvent, lwwStep, hv, hgt, hc, updateCell]
      · simp [RelayLoader.handleEvent, hv, hgt, hc, updateCell]

theorem service_handleEvent_cell (s : ServiceState) (ev : NostrEvent) (c : List Char) :
    ((Service.handleEvent s ev).events c).value =
      if c = getEventCoordinate ev then
        lwwStep ((s.events (getEventCoordinate ev)).value) ev
      else (s.events c).value := by
  cases hv : (s.events (getEventCoordinate ev)).value with
  | none =>
    by_cases hc : c = getEventCoordinate ev
    · simp [Service.handleEvent, lwwStep, hv, hc, updateCell, Subject.next]
    · simp [Service.handleEvent, hv, hc, updateCell]
  | some current =>
    by_cases hgt : ev.created_at > current.created_at
    · by_cases hc : c = getEventCoordinate ev
      · simp [Service.handleEvent, lwwStep, hv, hgt, hc, updateCell, Subject.next]
      · simp [Service.handleEvent, hv, hgt, hc, updateCell]
    · by_cases hc : c = getEventCoordinate ev
      · simp [Service.handleEvent, lwwStep, hv, hgt, hc, updateCell]
      · simp [Service.handleEvent, hv, hgt, hc, updateCell]

theorem Service.handleEvent_writes (s : ServiceState) (ev : NostrEvent) :
    (Service.handleEvent s ev).dbWrites =
      if lwwAccepts ((s.events (getEventCoordinate ev)).value) ev then
        s.dbWrites ++ [(getEventCoordinate ev, ev)]
      else s.dbWrites := by
  cases hv : (s.events (getEventCoordinate ev)).value with
  | none => simp [Service.handleEvent, lwwAccepts, hv]
  | some current =>
    by_cases hgt : ev.created_at > current.created_at
    · simp [Service.handleEvent, lwwAccepts, hv, hgt]
    · simp [Service.handleEvent, lwwAccepts, hv, hgt]

theorem relayMergeStep_cell (s : ServiceState) (cord : List Char) (ev : NostrEvent) :
    ((relayMergeStep s cord ev).events cord).value =
      if lwwAccepts ((s.events cord).value) ev then some ev
      else (s.events cord).value := by
  cases hv : (s.events cord).value with
  | none => simp [relayMergeStep, lwwAccepts, hv, updateCell, Subject.next]
  | some current =>
    by_cases hgt : ev.created_at > current.created_at
    · simp [relayMergeStep, lwwAccepts, hv, hgt, updateCell, Subject.next]
    · simp [relayMergeStep, lwwAccepts, hv, hgt]

theorem relayMergeStep_writes (s : ServiceState) (cord : List Char) (ev : NostrEvent) :
    (relayMergeStep s cord ev).dbWrites =
      if lwwAccepts ((s.events cord).value) ev then s.dbWrites ++ [(cord, ev)]
      else s.dbWrites := by
  cases hv : (s.events cord).value with
  | none => simp [relayMergeStep, lwwAccepts, hv]
  | some current =>
    by_cases hgt : ev.created_at > current.created_at
    · simp [relayMergeStep, lwwAccepts, hv, hgt]
    · simp [relayMergeStep, lwwAccepts, hv, hgt]

theorem foldl_relayHandleEvent_cell (l : List NostrEvent) (s : LoaderState) (c : List Char)
    (h : ∀ e ∈ l, getEventCoordinate e = c) :
    ((l.foldl RelayLoader.handleEvent s).events c).value =
      l.foldl lwwStep ((s.events c).value) := by
  induction l generalizing s with
  | nil => rfl
  | cons e t ih =>
    have hc := h e (by simp)
    simp only [List.foldl_cons]
    rw [ih (RelayLoader.handleEvent s e) (fun x hx => h x (by simp [hx]))]
    rw [relayLoader_handleEvent_cell]
    rw [hc, if_pos rfl]

theorem foldl_serviceHandleEvent_cell (l : List NostrEvent) (s : ServiceState) (c : List Char)
    (h : ∀ e ∈ l, getEventCoordinate e = c) :
    ((l.foldl Service.handleEvent s).events c).value =
      l.foldl lwwStep ((s.events c).value) := by
  induction l generalizing s with
  | nil => rfl
  | cons e t ih =>
    have hc := h e (by simp)
    simp only [List.foldl_cons]
    rw [ih (Service.handleEvent s e) (fun x hx => h x (by simp [hx]))]
    rw [service_handleEvent_cell]
    rw [hc, if_pos rfl]

theorem lwwStep_le (v e : NostrEvent) (h : e.created_at ≤ v.created_at) :
    lwwStep (some v) e = some v := by
  have hng : ¬ e.created_at > v.created_at := by omega
  simp [lwwStep, hng]

theorem foldl_lww_absorb (l : List NostrEvent) (v : NostrEvent)
    (h : ∀ e ∈ l, e.created_at ≤ v.created_at) :
    l.foldl lwwStep (some v) = some v := by
  induction l with
  | nil => rfl
  | cons e t ih =>
    simp only [List.foldl_cons]
    rw [lwwStep_le v e (h e (by simp))]
    exact ih (fun x hx => h x (by simp [hx]))

theorem foldl_lww_max (l : List NostrEvent) (estar : NostrEvent) (cur : Option NostrEvent)
    (hmem : estar ∈ l)
    (hmax : ∀ e ∈ l, e ≠ estar → e.created_at < estar.created_at)
    (hcur : cur = none ∨ ∃ w, cur = some w ∧ w.created_at < estar.created_at) :
    l.foldl lwwStep cur = some estar := by
  induction l generalizing cur with
  | nil => simp at hmem
  | cons e t ih =>
    simp only [List.foldl_cons]
    by_cases he : e = estar
    · subst he
      have hstep : lwwStep cur e = some e := by
        rcases hcur with h | ⟨w, hw, hlt⟩
        · subst h; rfl
        · subst hw
          have hgt : e.created_at > w.created_at := by omega
          simp [lwwStep, hgt]
      rw [hstep]
      refine foldl_lww_absorb t e (fun x hx => ?_)
      by_cases hxe : x = e
      · subst hxe; exact le_refl _
      · exact le_of_lt (hmax x (by simp [hx]) hxe)
    · have hel : e.created_at < estar.created_at := hmax e (by simp) he
      have hmem' : estar ∈ t := by
        rcases List.mem_cons.mp hmem with h | h
        · exact absurd h.symm he
        · exact h
      refine ih _ hmem' (fun x hx hxe => hmax x (by simp [hx]) hxe) ?_
      rcases hcur with h | ⟨w, hw, hlt⟩
      · subst h; exact Or.inr ⟨e, rfl, hel⟩
      · subst hw
        by_cases hgt : e.created_at > w.created_at
        · simp only [lwwStep, hgt, if_pos hgt]
          exact Or.inr ⟨e, rfl, hel⟩
        · simp only [lwwStep, if_neg hgt]
          exact Or.inr ⟨w, rfl, hlt⟩

theorem update_requested (s : LoaderState) (now : Int) :
    (s.update now).requested =
      (mergeDesired now s.requested s.requestNext).1.filter
        (fun p => !decide (p.2 < now - 60)) := rfl

theorem update_requestNext (s : LoaderState) (now : Int) :
    (s.update now).requestNext = [] := rfl

theorem update_events (s : LoaderState) (now : Int) :
    (s.update now).events = s.events := rfl

theorem update_query_opened (s : LoaderState) (now : Int)
    (hflag : (mergeDesired now s.requested s.requestNext).2 = true)
    (hne : 0 < (s.update now).requested.length) :
    (s.update now).query = some (buildFilters ((s.update now).requested)) ∧
    (s.update now).subState = SubState.opened := by
  rw [update_requested] at hne ⊢
  unfold LoaderState.update
  simp only [hflag, Bool.true_or, if_true]
  rw [if_pos hne]
  exact ⟨rfl, rfl⟩

theorem RelayLoader.handleEvent_requested (s : LoaderState) (ev : NostrEvent) :
    (RelayLoader.handleEvent s ev).requested =
      s.requested.filter (fun p => !decide (p.1 = getEventCoordinate ev)) := by
  cases hv : (s.events (getEventCoordinate ev)).value with
  | none => simp [RelayLoader.handleEvent, hv]
  | some current =>
    by_cases hgt : ev.created_at > current.created_at
    · simp [RelayLoader.handleEvent, hv, hgt]
    · simp [RelayLoader.handleEvent, hv, hgt]

theorem RelayLoader.requestEvent_requested (s : LoaderState) (kind : Nat)
    (pubkey : List Char) (d : Option (List Char)) :
    (RelayLoader.requestEvent s kind pubkey d).1.requested = s.requested := by
  by_cases h : ((s.events (createCoordinate kind pubkey d)).value).isNone
  · simp [RelayLoader.requestEvent, h]
  · simp [RelayLoader.requestEvent, h]

/-- C1 (counterexample): delivering two distinct objects that share one
coordinate and one creation timestamp in the two possible orders leaves the
loader's cell holding different final values, so the final state is not
independent of delivery order as the claim states (the strictly-newer
acceptance rule keeps the first arrival on a timestamp tie). -/
theorem c1_counterexample :
    ((List.foldl RelayLoader.handleEvent initLoader [evA, evB]).events cordA).value ≠
      ((List.foldl RelayLoader.handleEvent initLoader [evB, evA]).events cordA).value := by
  decide

/-- C1 (amended): for every finite delivery sequence of objects sharing one
coordinate whose maximum creation timestamp is attained by a unique object,
delivering the sequence in any order (with any duplication of that unique
object) through the loader's event handler or the coordinator's event
handler leaves the cell holding exactly that object — a final state
independent of delivery order and of duplicate deliveries. -/
theorem c1_final_value_is_unique_max (l : List NostrEvent) (c : List Char)
    (estar : NostrEvent)
    (hc : ∀ e ∈ l, getEventCoordinate e = c)
    (hmem : estar ∈ l)
    (hmax : ∀ e ∈ l, e ≠ estar → e.created_at < estar.created_at) :
    ((l.foldl RelayLoader.handleEvent initLoader).events c).value = some estar ∧
    ((l.foldl Service.handleEvent initService).events c).value = some estar := by
  constructor
  · rw [foldl_relayHandleEvent_cell l initLoader c hc]
    exact foldl_lww_max l estar none hmem hmax (Or.inl rfl)
  · rw [foldl_serviceHandleEvent_cell l initService c hc]
    exact foldl_lww_max l estar none hmem hmax (Or.inl rfl)

/-- C1 (witness): the amended theorem applied to the concrete deliveries
`[evA, evC, evA]` (timestamps 5, 9, 5) on coordinate `"0:a"`. -/
theorem c1_final_value_is_unique_max_witness :
    ((([evA, evC, evA] : List NostrEvent).foldl RelayLoader.handleEvent initLoader).events
        cordA).value = some evC ∧
    ((([evA, evC, evA] : List NostrEvent).foldl Service.handleEvent initService).events
        cordA).value = some evC :=
  c1_final_value_is_unique_max [evA, evC, evA] cordA evC (by decide) (by decide) (by decide)

/-- C2: once a Latest-Value Cell holds an object with timestamp `T`, a later
delivery with timestamp at most `T` changes nothing: the loader's cell
keeps its object, and on the coordinator's two delivery paths (own event
handler and the relay merge handler) the whole state is unchanged — the
arrival is dropped. -/
theorem c2_cell_monotonic (sl : LoaderState) (ss : ServiceState) (c : List Char)
    (cur ev : NostrEvent)
    (hl : (sl.events c).value = some cur)
    (hs : (ss.events c).value = some cur)
    (hcord : getEventCoordinate ev = c)
    (hle : ev.created_at ≤ cur.created_at) :
    ((RelayLoader.handleEvent sl ev).events c).value = some cur ∧
    Service.handleEvent ss ev = ss ∧
    relayMergeStep ss c ev = ss := by
  have hng : ¬ ev.created_at > cur.created_at := by omega
  refine ⟨?_, ?_, ?_⟩
  · rw [relayLoader_handleEvent_cell, hcord, if_pos rfl, hl, lwwStep_le cur ev hle]
  · simp [Service.handleEvent, hcord, hs, hng]
  · simp [relayMergeStep, hs, hng]

/-- C2 (witness): the monotonicity theorem applied to cells seeded with
`evC` (timestamp 9) receiving `evA` (timestamp 5). -/
theorem c2_cell_monotonic_witness :
    ((RelayLoader.handleEvent (RelayLoader.handleEvent initLoader evC) evA).events
        cordA).value = some evC ∧
    Service.handleEvent (Service.handleEvent initService evC) evA =
      Service.handleEvent initService evC ∧
    relayMergeStep (Service.handleEvent initService evC) cordA evA =
      Service.handleEvent initService evC :=
  c2_cell_monotonic (RelayLoader.handleEvent initLoader evC)
    (Service.handleEvent initService evC) cordA evC evA
    (by decide) (by decide) (by decide) (by decide)

/-- C5: a coordinate in the In-Flight Set leaves it exactly upon the first
of: (i) an event with that coordinate arriving — unconditionally, hence
even when its timestamp is not newer than the cached value; (ii) an
end-of-batch signal, which clears every in-flight entry at once; (iii) an
update call at a time more than 60 seconds past the coordinate's stamp,
while an update at most 60 seconds past the stamp keeps the entry with its
stamp unchanged; and `requestEvent` never touches the In-Flight Set. -/
theorem c5_inflight_removal (s : LoaderState) (ev : NostrEvent) (now t : Int)
    (cord : List Char) (kind : Nat) (pubkey : List Char) (d : Option (List Char))
    (hnd : (s.requested.map Prod.fst).Nodup)
    (hmem : lookupKey s.requested cord = some t) :
    lookupKey (RelayLoader.handleEvent s ev).requested (getEventCoordinate ev) = none ∧
    (RelayLoader.handleEOSE s).requested = [] ∧
    lookupKey (s.update now).requested cord = (if t < now - 60 then none else some t) ∧
    (RelayLoader.requestEvent s kind pubkey d).1.requested = s.requested := by
  refine ⟨?_, rfl, ?_, RelayLoader.requestEvent_requested s kind pubkey d⟩
  · rw [RelayLoader.handleEvent_requested]
    exact lookupKey_filter_self s.requested (getEventCoordinate ev)
  · have h1 : lookupKey (mergeDesired now s.requested s.requestNext).1 cord = some t :=
      mergeDesired_lookup now s.requested s.requestNext cord t hmem
    have hnd1 := mergeDesired_nodup now s.requested s.requestNext hnd
    rw [update_requested]
    rw [lookupKey_filter _ _ cord t hnd1 h1]
    by_cases hlt : t < now - 60
    · simp [hlt]
    · simp [hlt]

/-- C5 (witness): the removal theorem applied to `loaderW` (coordinate
`"0:a"` stamped at 100) with an arriving stale event, an update at time 200
(more than 60 seconds later), and a `requestEvent` call. -/
theorem c5_inflight_removal_witness :
    (lookupKey (RelayLoader.handleEvent loaderW evA).requested (getEventCoordinate evA) =
        none ∧
      (RelayLoader.handleEOSE loaderW).requested = [] ∧
      lookupKey (loaderW.update 200).requested cordA =
        (if (100 : Int) < 200 - 60 then none else some 100) ∧
      (RelayLoader.requestEvent loaderW 0 ['a'] none).1.requested = loaderW.requested) :=
  c5_inflight_removal loaderW evA 200 100 cordA 0 ['a'] none (by decide) (by decide)

/-- C10: an update call empties the entire Desired Set, including a
coordinate that is already in flight, whose in-flight stamp is neither
moved nor restamped; consequently, once a later update runs more than 60
seconds after that stamp the coordinate is gone from the In-Flight Set and
is not re-queried (the Desired Set is already empty) — until `requestEvent`
is called for it again while its cell is still empty, which re-adds it to
the Desired Set. -/
theorem c10_update_clears_desired (s : LoaderState) (now1 now2 : Int)
    (kind : Nat) (pubkey : List Char) (d : Option (List Char)) (t : Int)
    (hnd : (s.requested.map Prod.fst).Nodup)
    (hmem : lookupKey s.requested (createCoordinate kind pubkey d) = some t)
    (_hdes : createCoordinate kind pubkey d ∈ s.requestNext)
    (hcell : (s.events (createCoordinate kind pubkey d)).value = none)
    (hfresh : ¬ t < now1 - 60)
    (hstale : t < now2 - 60) :
    (s.update now1).requestNext = [] ∧
    lookupKey (s.update now1).requested (createCoordinate kind pubkey d) = some t ∧
    lookupKey ((s.update now1).update now2).requested (createCoordinate kind pubkey d) =
      none ∧
    ((s.update now1).update now2).requestNext = [] ∧
    (RelayLoader.requestEvent ((s.update now1).update now2) kind pubkey d).1.requestNext =
      [createCoordinate kind pubkey d] := by
  set cord := createCoordinate kind pubkey d with hcordDef
  have h1 : lookupKey (mergeDesired now1 s.requested s.requestNext).1 cord = some t :=
    mergeDesired_lookup now1 s.requested s.requestNext cord t hmem
  have hnd1 := mergeDesired_nodup now1 s.requested s.requestNext hnd
  have hlook1 : lookupKey (s.update now1).requested cord = some t := by
    rw [update_requested, lookupKey_filter _ _ cord t hnd1 h1]
    simp [hfresh]
  have hnd2 : ((s.update now1).requested.map Prod.fst).Nodup := by
    rw [update_requested]
    exact nodup_keys_filter _ _ hnd1
  have hmerge2 : mergeDesired now2 (s.update now1).requested (s.update now1).requestNext =
      ((s.update now1).requested, false) := by
    rw [update_requestNext]
    rfl
  have hlook2 : lookupKey ((s.update now1).update now2).requested cord = none := by
    rw [update_requested, hmerge2, lookupKey_filter _ _ cord t hnd2 hlook1]
    simp [hstale]
  have hcell2 : (((s.update now1).update now2).events cord).value = none := by
    rw [update_events, update_events]
    exact hcell
  refine ⟨update_requestNext s now1, hlook1, hlook2, update_requestNext _ now2, ?_⟩
  have hnext2 : ((s.update now1).update now2).requestNext = [] := update_requestNext _ now2
  simp [RelayLoader.requestEvent, ← hcordDef, hcell2, hnext2]

/-- C10 (witness): the theorem applied to `loaderW2` (coordinate `"0:a"`
both desired and in-flight at stamp 100) with updates at times 150 and
300. -/
theorem c10_update_clears_desired_witness :
    (loaderW2.update 150).requestNext = [] ∧
    lookupKey (loaderW2.update 150).requested (createCoordinate 0 ['a'] none) = some 100 ∧
    lookupKey ((loaderW2.update 150).update 300).requested (createCoordinate 0 ['a'] none) =
      none ∧
    ((loaderW2.update 150).update 300).requestNext = [] ∧
    (RelayLoader.requestEvent ((loaderW2.update 150).update 300) 0 ['a'] none).1.requestNext =
      [createCoordinate 0 ['a'] none] :=
  c10_update_clears_desired loaderW2 150 300 0 ['a'] none 100
    (by decide) (by decide) (by decide) (by decide) (by decide) (by decide)

/-- C3: while a durable-store read for a coordinate is outstanding (a dedupe
entry maps the coordinate to its promise), every further `loadFromCache`
call for that coordinate returns that same promise, changes nothing, and
issues no second store read; and a call on a state with no registered read
for the coordinate issues exactly one, registering its promise in the
dedupe map and the pending-read set so that concurrent callers observe its
single outcome. -/
theorem c3_cache_read_dedupe (s sFresh : ServiceState) (cord : List Char) (pid : Nat)
    (hdup : lookupKey s.loadCacheDedupe cord = some pid)
    (hnone : lookupKey sFresh.loadCacheDedupe cord = none) :
    loadFromCache s cord = (pid, s, false) ∧
    (loadFromCache sFresh cord).2.2 = true ∧
    lookupKey (loadFromCache sFresh cord).2.1.loadCacheDedupe cord =
      some (loadFromCache sFresh cord).1 ∧
    (loadFromCache sFresh cord).1 ∈ (loadFromCache sFresh cord).2.1.pendingReads := by
  refine ⟨by simp [loadFromCache, hdup], by simp [loadFromCache, hnone], ?_,
    by simp [loadFromCache, hnone]⟩
  simp only [loadFromCache, hnone]
  rw [lookupKey_append_right _ _ _ hnone]
  exact lookupKey_singleton_self cord sFresh.promiseCtr

/-- C3 (witness): the dedupe theorem applied to a state whose dedupe map
already holds promise 7 for coordinate `"0:a"` and to the fresh service. -/
theorem c3_cache_read_dedupe_witness :
    loadFromCache
        { events := fun _ => { value := none }
          loadCacheDedupe := [(cordA, 7)]
          promiseCtr := 8
          pendingReads := [7]
          dbWrites := [] } cordA =
      (7,
       { events := fun _ => { value := none }
         loadCacheDedupe := [(cordA, 7)]
         promiseCtr := 8
         pendingReads := [7]
         dbWrites := [] },
       false) ∧
    (loadFromCache initService cordA).2.2 = true ∧
    lookupKey (loadFromCache initService cordA).2.1.loadCacheDedupe cordA =
      some (loadFromCache initService cordA).1 ∧
    (loadFromCache initService cordA).1 ∈ (loadFromCache initService cordA).2.1.pendingReads :=
  c3_cache_read_dedupe
    { events := fun _ => { value := none }
      loadCacheDedupe := [(cordA, 7)]
      promiseCtr := 8
      pendingReads := [7]
      dbWrites := [] } initService cordA 7 (by decide) (by decide)

/-- C4 (counterexample): starting from the fresh service, `requestEvent` for
kind 0 / identity `"a"` issues store read 0; when that read fails, the
network fall-through does not fire, the dedupe entry for the coordinate is
still registered, and a subsequent cache lookup issues no new store read —
contradicting the claim that a failed read is handled like a cache miss. -/
theorem c4_counterexample :
    (resolveCacheRead (Service.requestEvent initService 0 ['a'] none).1 cordA 0
        DbReadResult.failure).2 = false ∧
    lookupKey (resolveCacheRead (Service.requestEvent initService 0 ['a'] none).1 cordA 0
        DbReadResult.failure).1.loadCacheDedupe cordA = some 0 ∧
    (loadFromCache (resolveCacheRead (Service.requestEvent initService 0 ['a'] none).1 cordA 0
        DbReadResult.failure).1 cordA).2.2 = false := by
  decide

/-- C4 (amended): when a durable-store read issued by `requestEvent` fails,
the rejection is unhandled rather than surfaced, the fall-through network
request to the supplied relays is NOT issued, the dedupe entry for the
coordinate is never removed, and every subsequent cache lookup for that
coordinate returns the same failed read without issuing a new store read —
the coordinate's cache path stays blocked. -/
theorem c4_read_failure_blocks (s : ServiceState) (cord : List Char) (pid : Nat)
    (hdup : lookupKey s.loadCacheDedupe cord = some pid) :
    (resolveCacheRead s cord pid DbReadResult.failure).2 = false ∧
    (resolveCacheRead s cord pid DbReadResult.failure).1.loadCacheDedupe =
      s.loadCacheDedupe ∧
    loadFromCache (resolveCacheRead s cord pid DbReadResult.failure).1 cord =
      (pid, (resolveCacheRead s cord pid DbReadResult.failure).1, false) := by
  refine ⟨rfl, rfl, ?_⟩
  simp [loadFromCache, resolveCacheRead, hdup]

/-- C4 (witness): the amended theorem applied to the state produced by
`requestEvent` on the fresh service, whose dedupe map holds promise 0 for
coordinate `"0:a"`. -/
theorem c4_read_failure_blocks_witness :
    (resolveCacheRead (Service.requestEvent initService 0 ['a'] none).1 cordA 0
        DbReadResult.failure).2 = false ∧
    (resolveCacheRead (Service.requestEvent initService 0 ['a'] none).1 cordA 0
        DbReadResult.failure).1.loadCacheDedupe =
      (Service.requestEvent initService 0 ['a'] none).1.loadCacheDedupe ∧
    loadFromCache (resolveCacheRead (Service.requestEvent initService 0 ['a'] none).1 cordA 0
        DbReadResult.failure).1 cordA =
      (0,
       (resolveCacheRead (Service.requestEvent initService 0 ['a'] none).1 cordA 0
         DbReadResult.failure).1,
       false) :=
  c4_read_failure_blocks (Service.requestEvent initService 0 ['a'] none).1 cordA 0 (by decide)

/-- C9: on the coordinator's two delivery paths (own event handler for
ingested events, and the merge handler installed on relay subscriptions)
the durable-cache write log grows by exactly the accepted object under the
coordinate's string key when the central cell accepts the replacement, and
is untouched when the arrival is rejected as not newer; the cell itself
takes the object exactly in the accepted case. -/
theorem c9_accepted_replacements_persisted (s : ServiceState) (ev : NostrEvent)
    (cord : List Char) :
    ((Service.handleEvent s ev).dbWrites =
      if lwwAccepts ((s.events (getEventCoordinate ev)).value) ev then
        s.dbWrites ++ [(getEventCoordinate ev, ev)]
      else s.dbWrites) ∧
    ((Service.handleEvent s ev).events (getEventCoordinate ev)).value =
      (if lwwAccepts ((s.events (getEventCoordinate ev)).value) ev then some ev
       else (s.events (getEventCoordinate ev)).value) ∧
    ((relayMergeStep s cord ev).dbWrites =
      if lwwAccepts ((s.events cord).value) ev then s.dbWrites ++ [(cord, ev)]
      else s.dbWrites) ∧
    ((relayMergeStep s cord ev).events cord).value =
      (if lwwAccepts ((s.events cord).value) ev then some ev
       else (s.events cord).value) := by
  refine ⟨Service.handleEvent_writes s ev, ?_, relayMergeStep_writes s cord ev,
    relayMergeStep_cell s cord ev⟩
  rw [service_handleEvent_cell, if_pos rfl, lwwStep_accepts]

theorem filter_and_absorb {α : Type} (l : List α) (p q : α → Bool)
    (h : ∀ a ∈ l, p a = true → q a = true) :
    l.filter (fun a => p a && q a) = l.filter p := by
  induction l with
  | nil => rfl
  | cons x t ih =>
    have ht := ih (fun a ha hp => h a (by simp [ha]) hp)
    by_cases hp : p x = true
    · have hq := h x (by simp) hp
      simp [List.filter_cons, hp, hq, ht]
    · simp [List.filter_cons, hp, ht]

theorem saveToCache_entry (store : List DbEntry) (cord : List Char) (ev : NostrEvent)
    (T : Int) :
    (saveToCache store cord ev T).filter (fun en => decide (en.addr = cord)) =
      [{ addr := cord, event := ev, created := T }] := by
  unfold saveToCache
  rw [List.filter_append]
  have h1 : (store.filter (fun en => !decide (en.addr = cord))).filter
      (fun en => decide (en.addr = cord)) = [] := by
    rw [List.filter_filter]
    apply List.filter_eq_nil_iff.mpr
    intro a _
    cases h : decide (a.addr = cord) <;> simp [h]
  rw [h1]
  simp

theorem prune_mem_keys (store : List DbEntry) (now : Int) (a : List Char) :
    (a ∈ ((store.filter (fun en => decide (en.created ≤ now - 86400))).map
        (fun en => en.addr))) ↔
      ∃ en ∈ store, en.created ≤ now - 86400 ∧ en.addr = a := by
  simp only [List.mem_map, List.mem_filter]
  constructor
  · rintro ⟨en, ⟨hmem, hcut⟩, ha⟩
    exact ⟨en, hmem, by simpa using hcut, ha⟩
  · rintro ⟨en, hmem, hcut, ha⟩
    exact ⟨en, ⟨hmem, by simpa using hcut⟩, ha⟩

theorem pruneCache_eq (store : List DbEntry) (now : Int) :
    pruneCache store now =
      store.filter (fun en => !decide (en.addr ∈
        (store.filter (fun en2 => decide (en2.created ≤ now - 86400))).map
          (fun en2 => en2.addr))) := rfl

/-- C7: an entry saved at time `T` is the unique entry under its key right
after the save; a prune executed when `now₁ − T` exceeds one day removes
every entry under that key; a prune executed when `now₂ − T` is under one
day leaves the entry untouched; and in general, over a store with unique
keys (as the object store's key path guarantees), `pruneCache` keeps an
entry iff its save timestamp is not at most `now − 86400` — the
inclusive-upper-bound range delete removes exactly the entries at least
one day old. -/
theorem c7_prune_retention (store : List DbEntry) (cord : List Char) (ev : NostrEvent)
    (T now1 now2 now : Int) (store2 : List DbEntry) (en : DbEntry)
    (hstale : now1 - T > 86400) (hfresh : now2 - T < 86400)
    (hnd : (store2.map (fun e => e.addr)).Nodup) :
    (saveToCache store cord ev T).filter (fun e => decide (e.addr = cord)) =
      [{ addr := cord, event := ev, created := T }] ∧
    (pruneCache (saveToCache store cord ev T) now1).filter
      (fun e => decide (e.addr = cord)) = [] ∧
    (pruneCache (saveToCache store cord ev T) now2).filter
      (fun e => decide (e.addr = cord)) =
      [{ addr := cord, event := ev, created := T }] ∧
    (en ∈ pruneCache store2 now ↔ en ∈ store2 ∧ ¬ en.created ≤ now - 86400) := by
  have hsave := saveToCache_entry store cord ev T
  have hnew : ({ addr := cord, event := ev, created := T } : DbEntry) ∈
      saveToCache store cord ev T := by
    unfold saveToCache
    simp
  refine ⟨hsave, ?_, ?_, ?_⟩
  · -- stale: every entry keyed cord is removed because cord is in the delete-key list
    have hkey : cord ∈ ((saveToCache store cord ev T).filter
        (fun e2 => decide (e2.created ≤ now1 - 86400))).map (fun e2 => e2.addr) :=
      (prune_mem_keys (saveToCache store cord ev T) now1 cord).mpr
        ⟨{ addr := cord, event := ev, created := T }, hnew, show T ≤ now1 - 86400 by omega, rfl⟩
    rw [pruneCache_eq, List.filter_filter]
    apply List.filter_eq_nil_iff.mpr
    intro a _
    by_cases ha : a.addr = cord
    · simp [ha, hkey]
    · simp [ha]
  · -- fresh: cord is not in the delete-key list, so the entry survives
    have hkey : cord ∉ ((saveToCache store cord ev T).filter
        (fun e2 => decide (e2.created ≤ now2 - 86400))).map (fun e2 => e2.addr) := by
      intro hk
      rcases (prune_mem_keys (saveToCache store cord ev T) now2 cord).mp hk with
        ⟨en2, hmem2, hcut2, haddr2⟩
      have hen2 : en2 ∈ (saveToCache store cord ev T).filter
          (fun e => decide (e.addr = cord)) :=
        List.mem_filter.mpr ⟨hmem2, by simp [haddr2]⟩
      rw [hsave] at hen2
      rw [List.mem_singleton] at hen2
      subst hen2
      simp at hcut2
      omega
    rw [pruneCache_eq, List.filter_filter]
    rw [filter_and_absorb _ _ _ (fun a _ hp => ?_), hsave]
    have ha : a.addr = cord := by simpa using hp
    simp [ha, hkey]
  · rw [pruneCache_eq]
    constructor
    · intro hmem
      rcases List.mem_filter.mp hmem with ⟨hmem2, hkey⟩
      refine ⟨hmem2, fun hcut => ?_⟩
      have : en.addr ∈ (store2.filter (fun e2 => decide (e2.created ≤ now - 86400))).map
          (fun e2 => e2.addr) :=
        (prune_mem_keys store2 now en.addr).mpr ⟨en, hmem2, hcut, rfl⟩
      simp [this] at hkey
    · rintro ⟨hmem2, hcut⟩
      refine List.mem_filter.mpr ⟨hmem2, ?_⟩
      have hn : en.addr ∉ (store2.filter (fun e2 => decide (e2.created ≤ now - 86400))).map
          (fun e2 => e2.addr) := by
        intro hk
        rcases (prune_mem_keys store2 now en.addr).mp hk with ⟨en2, hmem3, hcut3, haddr3⟩
        have he : en2 = en := List.inj_on_of_nodup_map hnd hmem3 hmem2 haddr3
        subst he
        exact hcut hcut3
      simp [hn]

/-- C7 (witness): the retention theorem applied to the empty store, an entry
saved at time 0, prunes at times 100000 (stale) and 50000 (fresh), and the
general membership conjunct instantiated at a concrete one-entry store. -/
theorem c7_prune_retention_witness :
    (saveToCache [] cordA evA 0).filter (fun e => decide (e.addr = cordA)) =
      [{ addr := cordA, event := evA, created := 0 }] ∧
    (pruneCache (saveToCache [] cordA evA 0) 100000).filter
      (fun e => decide (e.addr = cordA)) = [] ∧
    (pruneCache (saveToCache [] cordA evA 0) 50000).filter
      (fun e => decide (e.addr = cordA)) =
      [{ addr := cordA, event := evA, created := 0 }] ∧
    ({ addr := cordA, event := evA, created := 0 } ∈
        pruneCache [{ addr := cordA, event := evA, created := 0 }] 50000 ↔
      { addr := cordA, event := evA, created := 0 } ∈
          [({ addr := cordA, event := evA, created := 0 } : DbEntry)] ∧
        ¬ (0 : Int) ≤ 50000 - 86400) :=
  c7_prune_retention [] cordA evA 0 100000 50000 50000
    [{ addr := cordA, event := evA, created := 0 }]
    { addr := cordA, event := evA, created := 0 }
    (by decide) (by decide) (by decide)

/-- C8 (counterexample): the coordinate (kind 1, identity `"a"`, present but
empty discriminator) contains no separator character anywhere, yet encoding
renders the falsy empty discriminator like an absent one, so parsing yields
an absent discriminator and the round trip fails. -/
theorem c8_counterexample :
    parseCoordinate (createCoordinate 1 ['a'] (some [])) ≠ (1, ['a'], some []) := by
  decide

/-- C8 (amended): for every coordinate whose identity contains no separator
and whose discriminator, when present, is nonempty and contains no
separator — in particular (kind 1, identity `"abc"`, absent) and
(kind 30023, identity `"abc"`, discriminator `"d1"`) — encoding with
`createCoordinate` and then parsing the string the way the loader's filter
rebuild does returns the original (kind, identity, discriminator) triple. -/
theorem c8_coordinate_roundtrip (kind : Nat) (pubkey : List Char)
    (d : Option (List Char)) (hp : ∀ c ∈ pubkey, c ≠ ':')
    (hd : ∀ dv, d = some dv → (∀ c ∈ dv, c ≠ ':') ∧ dv ≠ []) :
    parseCoordinate (createCoordinate kind pubkey d) = (kind, pubkey, d) :=
  parseCoordinate_createCoordinate kind pubkey d hp hd

/-- C8 (witness): the round trip at the two instances named by the claim,
(1, `"abc"`, absent) and (30023, `"abc"`, `"d1"`). -/
theorem c8_coordinate_roundtrip_witness :
    parseCoordinate (createCoordinate 1 ['a', 'b', 'c'] none) =
      (1, ['a', 'b', 'c'], none) ∧
    parseCoordinate (createCoordinate 30023 ['a', 'b', 'c'] (some ['d', '1'])) =
      (30023, ['a', 'b', 'c'], some ['d', '1']) :=
  ⟨c8_coordinate_roundtrip 1 ['a', 'b', 'c'] none (by decide) (by simp),
   c8_coordinate_roundtrip 30023 ['a', 'b', 'c'] (some ['d', '1']) (by decide)
     (by intro dv hdv; cases hdv; exact ⟨by decide, by decide⟩)⟩

theorem recordStep_eq (recs : List (Nat × NostrQuery)) (cord : List Char) :
    recordStep recs cord =
      setKey recs (cordKind cord) (nextRecord (lookupKey recs (cordKind cord)) cord) := rfl

theorem buildFilters_eq (requested : List (List Char × Int)) :
    buildFilters requested = (sortByKind (recsOf requested)).map Prod.snd := rfl

theorem lookupKey_setKey_self {κ α : Type} [DecidableEq κ] (l : List (κ × α)) (k : κ)
    (v : α) : lookupKey (setKey l k v) k = some v := by
  induction l with
  | nil => simp [setKey, lookupKey]
  | cons p t ih =>
    by_cases hp : p.1 = k
    · simp [setKey, hp, lookupKey]
    · simp [setKey, hp, lookupKey, ih]

theorem lookupKey_setKey_ne {κ α : Type} [DecidableEq κ] (l : List (κ × α)) (k k' : κ)
    (v : α) (h : k' ≠ k) : lookupKey (setKey l k v) k' = lookupKey l k' := by
  induction l with
  | nil => simp [setKey, lookupKey, Ne.symm h]
  | cons p t ih =>
    by_cases hp : p.1 = k
    · have hpk' : ¬ p.1 = k' := by rw [hp]; exact Ne.symm h
      simp [setKey, hp, lookupKey, Ne.symm h, hpk']
    · simp [setKey, hp, lookupKey, ih]

theorem mem_setKey {κ α : Type} [DecidableEq κ] (l : List (κ × α)) (k : κ) (v : α)
    (x : κ × α) (hx : x ∈ setKey l k v) : x = (k, v) ∨ x ∈ l := by
  induction l with
  | nil =>
    simp [setKey] at hx
    exact Or.inl hx
  | cons p t ih =>
    by_cases hp : p.1 = k
    · rw [show setKey (p :: t) k v = (k, v) :: t by simp [setKey, hp]] at hx
      rcases List.mem_cons.mp hx with h | h
      · exact Or.inl h
      · exact Or.inr (by simp [h])
    · rw [show setKey (p :: t) k v = p :: setKey t k v by simp [setKey, hp]] at hx
      rcases List.mem_cons.mp hx with h | h
      · exact Or.inr (by simp [h])
      · rcases ih h with h2 | h2
        · exact Or.inl h2
        · exact Or.inr (by simp [h2])

theorem mem_keys_setKey {κ α : Type} [DecidableEq κ] (l : List (κ × α)) (k a : κ) (v : α)
    (ha : a ∈ (setKey l k v).map Prod.fst) : a = k ∨ a ∈ l.map Prod.fst := by
  rcases List.mem_map.mp ha with ⟨x, hx, hxa⟩
  rcases mem_setKey l k v x hx with h | h
  · subst h
    exact Or.inl hxa.symm
  · exact Or.inr (List.mem_map.mpr ⟨x, h, hxa⟩)

theorem nodup_keys_setKey {κ α : Type} [DecidableEq κ] (l : List (κ × α)) (k : κ) (v : α)
    (hnd : (l.map Prod.fst).Nodup) : ((setKey l k v).map Prod.fst).Nodup := by
  induction l with
  | nil => simp [setKey]
  | cons p t ih =>
    have hcons : (p.1 :: t.map Prod.fst).Nodup := by simpa using hnd
    have h1 : p.1 ∉ t.map Prod.fst := (List.nodup_cons.mp hcons).1
    have h2 : (t.map Prod.fst).Nodup := (List.nodup_cons.mp hcons).2
    by_cases hp : p.1 = k
    · rw [show setKey (p :: t) k v = (k, v) :: t by simp [setKey, hp]]
      simp only [List.map_cons, List.nodup_cons]
      refine ⟨?_, h2⟩
      rw [← hp]
      exact h1
    · rw [show setKey (p :: t) k v = p :: setKey t k v by simp [setKey, hp]]
      simp only [List.map_cons, List.nodup_cons]
      refine ⟨?_, ih h2⟩
      intro hmem
      rcases mem_keys_setKey t k p.1 v hmem with h | h
      · exact hp h
      · exact h1 h

theorem nextRecord_kinds (cur : Option NostrQuery) (cord : List Char)
    (h : ∀ q, cur = some q → q.kinds = [cordKind cord]) :
    (nextRecord cur cord).kinds = [cordKind cord] := by
  cases cur with
  | none =>
    cases hd : cordD cord with
    | none => simp [nextRecord, hd]
    | some dv => simp [nextRecord, hd]
  | some q =>
    have hq := h q rfl
    cases hd : cordD cord with
    | none => simp [nextRecord, hd, hq]
    | some dv => simp [nextRecord, hd, hq]

theorem filterForKind_snoc_ne (l : List (List Char × Int)) (p : List Char × Int) (K : Nat)
    (hne : cordKind p.1 ≠ K) : filterForKind (l ++ [p]) K = filterForKind l K := by
  have hnil : [p].filter (fun x => decide (cordKind x.1 = K)) = [] := by simp [hne]
  unfold filterForKind
  rw [List.filter_append, hnil, List.append_nil]

theorem filter_snoc_self (l : List (List Char × Int)) (p : List Char × Int) :
    (l ++ [p]).filter (fun x => decide (cordKind x.1 = cordKind p.1)) =
      l.filter (fun x => decide (cordKind x.1 = cordKind p.1)) ++ [p] := by
  rw [List.filter_append]
  simp

theorem nextRecord_filterForKind (l : List (List Char × Int)) (p : List Char × Int) :
    nextRecord
      (if (l.filter (fun x => decide (cordKind x.1 = cordKind p.1))).isEmpty = true then none
       else some (filterForKind l (cordKind p.1))) p.1 =
      filterForKind (l ++ [p]) (cordKind p.1) := by
  by_cases hE : (l.filter (fun x => decide (cordKind x.1 = cordKind p.1))).isEmpty = true
  · have hnil : l.filter (fun x => decide (cordKind x.1 = cordKind p.1)) = [] :=
      List.isEmpty_iff.mp hE
    rw [if_pos hE]
    simp only [filterForKind]
    rw [filter_snoc_self, hnil]
    cases hd : cordD p.1 with
    | none => simp [nextRecord, hd]
    | some dv => simp [nextRecord, hd]
  · rw [if_neg hE]
    simp only [filterForKind]
    rw [filter_snoc_self]
    rw [List.map_append, List.filterMap_append]
    cases hd : cordD p.1 with
    | none =>
      have hfm : List.filterMap (fun x => cordD x.1) [p] = [] := by simp [hd]
      rw [hfm, List.append_nil]
      simp only [nextRecord, hd, List.map_cons, List.map_nil]
      by_cases hds : ((l.filter (fun x => decide (cordKind x.1 = cordKind p.1))).filterMap
          (fun x => cordD x.1)).isEmpty = true
      · simp [hds]
      · simp [hds]
    | some dv =>
      have hfm : List.filterMap (fun x => cordD x.1) [p] = [dv] := by simp [hd]
      rw [hfm]
      simp only [nextRecord, hd, List.map_cons, List.map_nil]
      by_cases hds : ((l.filter (fun x => decide (cordKind x.1 = cordKind p.1))).filterMap
          (fun x => cordD x.1)).isEmpty = true
      · have hnil2 := List.isEmpty_iff.mp hds
        simp [hds, hnil2]
      · have hne2 : (((l.filter (fun x => decide (cordKind x.1 = cordKind p.1))).filterMap
            (fun x => cordD x.1)) ++ [dv]).isEmpty = false := by
          rw [Bool.eq_false_iff]
          intro hx
          have := List.isEmpty_iff.mp hx
          simp at this
        simp [hds, hne2]

theorem recsOf_snoc (l : List (List Char × Int)) (p : List Char × Int) :
    recsOf (l ++ [p]) = recordStep (recsOf l) p.1 := by
  unfold recsOf
  rw [List.foldl_append]
  rfl

theorem recsOf_spec (r : List (List Char × Int)) :
    ((recsOf r).map Prod.fst).Nodup ∧
    (∀ pq ∈ recsOf r, pq.2.kinds = [pq.1]) ∧
    (∀ K : Nat,
      lookupKey (recsOf r) K =
        if (r.filter (fun x => decide (cordKind x.1 = K))).isEmpty = true then none
        else some (filterForKind r K)) := by
  induction r using List.reverseRecOn with
  | nil =>
    refine ⟨by simp [recsOf], by simp [recsOf], fun K => ?_⟩
    simp [recsOf, lookupKey]
  | append_singleton l p ih =>
    obtain ⟨hnd, hkinds, hlook⟩ := ih
    have hself : lookupKey (recsOf (l ++ [p])) (cordKind p.1) =
        some (nextRecord (lookupKey (recsOf l) (cordKind p.1)) p.1) := by
      rw [recsOf_snoc, recordStep_eq]
      exact lookupKey_setKey_self _ _ _
    refine ⟨?_, ?_, ?_⟩
    · rw [recsOf_snoc, recordStep_eq]
      exact nodup_keys_setKey _ _ _ hnd
    · intro pq hpq
      rw [recsOf_snoc, recordStep_eq] at hpq
      rcases mem_setKey _ _ _ pq hpq with h | h
      · subst h
        exact nextRecord_kinds _ _ (fun q hq => by
          rw [hlook (cordKind p.1)] at hq
          by_cases hE : (l.filter (fun x => decide (cordKind x.1 = cordKind p.1))).isEmpty = true
          · rw [if_pos hE] at hq
            exact Option.noConfusion hq
          · rw [if_neg hE] at hq
            have hq2 := Option.some.inj hq
            rw [← hq2]
            rfl)
      · exact hkinds pq h
    · intro K
      by_cases hK : K = cordKind p.1
      · subst hK
        rw [hself, hlook (cordKind p.1)]
        have hpe : p ∈ (l ++ [p]).filter (fun x => decide (cordKind x.1 = cordKind p.1)) :=
          List.mem_filter.mpr ⟨by simp, by simp⟩
        have hne2 : ¬ ((l ++ [p]).filter
            (fun x => decide (cordKind x.1 = cordKind p.1))).isEmpty = true := by
          rw [List.isEmpty_iff]
          intro hnil
          rw [hnil] at hpe
          simp at hpe
        rw [if_neg hne2]
        exact congrArg some (nextRecord_filterForKind l p)
      · rw [recsOf_snoc, recordStep_eq, lookupKey_setKey_ne _ _ _ _ hK, hlook K]
        have hkp : cordKind p.1 ≠ K := fun h => hK h.symm
        have hgroups : (l ++ [p]).filter (fun x => decide (cordKind x.1 = K)) =
            l.filter (fun x => decide (cordKind x.1 = K)) := by
          rw [List.filter_append]
          have : [p].filter (fun x => decide (cordKind x.1 = K)) = [] := by simp [hkp]
          rw [this, List.append_nil]
        rw [hgroups, filterForKind_snoc_ne l p K hkp]

theorem assoc_filter_kinds (L : List (Nat × NostrQuery)) (K : Nat)
    (hnd : (L.map Prod.fst).Nodup) (hkinds : ∀ pq ∈ L, pq.2.kinds = [pq.1]) :
    (L.map Prod.snd).filter (fun q => decide (q.kinds = [K])) =
      (lookupKey L K).toList := by
  induction L with
  | nil => rfl
  | cons p t ih =>
    have hcons : (p.1 :: t.map Prod.fst).Nodup := by simpa using hnd
    have h1 : p.1 ∉ t.map Prod.fst := (List.nodup_cons.mp hcons).1
    have h2 : (t.map Prod.fst).Nodup := (List.nodup_cons.mp hcons).2
    have hk : p.2.kinds = [p.1] := hkinds p (by simp)
    have hkt : ∀ pq ∈ t, pq.2.kinds = [pq.1] := fun pq hpq => hkinds pq (by simp [hpq])
    simp only [List.map_cons]
    by_cases hp : p.1 = K
    · have hpred : decide (p.2.kinds = [K]) = true := by simp [hk, hp]
      simp only [List.filter_cons, hpred, if_true]
      have htail : (t.map Prod.snd).filter (fun q => decide (q.kinds = [K])) = [] := by
        apply List.filter_eq_nil_iff.mpr
        intro q hq
        rcases List.mem_map.mp hq with ⟨pq, hpq, hq2⟩
        have hpqk := hkt pq hpq
        simp only [decide_eq_true_eq]
        rw [← hq2, hpqk]
        intro hkk
        have hpk : pq.1 = K := by simpa using hkk
        apply h1
        rw [hp, ← hpk]
        exact List.mem_map.mpr ⟨pq, hpq, rfl⟩
      rw [htail]
      have hl : lookupKey (p :: t) K = some p.2 := by simp [lookupKey, hp]
      rw [hl]
      rfl
    · have hpred : decide (p.2.kinds = [K]) = false := by
        rw [decide_eq_false_iff_not, hk]
        intro hkk
        exact hp (by simpa using hkk)
      simp only [List.filter_cons, hpred, Bool.false_eq_true, if_false]
      have hl : lookupKey (p :: t) K = lookupKey t K := by simp [lookupKey, hp]
      rw [hl]
      exact ih h2 hkt

theorem insertByKind_perm (p : Nat × NostrQuery) (l : List (Nat × NostrQuery)) :
    List.Perm (insertByKind p l) (p :: l) := by
  induction l with
  | nil => exact List.Perm.refl _
  | cons q t ih =>
    unfold insertByKind
    by_cases h : p.1 ≤ q.1
    · rw [if_pos h]
    · rw [if_neg h]
      exact List.Perm.trans (ih.cons q) (List.Perm.swap p q t)

theorem sortByKind_perm (l : List (Nat × NostrQuery)) : List.Perm (sortByKind l) l := by
  induction l with
  | nil => exact List.Perm.refl _
  | cons p t ih =>
    unfold sortByKind
    exact List.Perm.trans (insertByKind_perm p (sortByKind t)) (ih.cons p)

theorem buildFilters_filter_kind (r : List (List Char × Int)) (K : Nat) :
    (buildFilters r).filter (fun q => decide (q.kinds = [K])) =
      (lookupKey (recsOf r) K).toList := by
  obtain ⟨hnd, hkinds, _⟩ := recsOf_spec r
  have hperm : List.Perm (buildFilters r) ((recsOf r).map Prod.snd) := by
    rw [buildFilters_eq]
    exact (sortByKind_perm (recsOf r)).map Prod.snd
  have hperm2 : List.Perm
      ((buildFilters r).filter (fun q => decide (q.kinds = [K])))
      (((recsOf r).map Prod.snd).filter (fun q => decide (q.kinds = [K]))) :=
    hperm.filter _
  rw [assoc_filter_kinds (recsOf r) K hnd hkinds] at hperm2
  cases h : lookupKey (recsOf r) K with
  | none =>
    rw [h] at hperm2
    exact List.perm_nil.mp (by simpa using hperm2)
  | some q =>
    rw [h] at hperm2
    exact List.perm_singleton.mp (by simpa using hperm2)

theorem group_isEmpty_iff (r : List (List Char × Int)) (K : Nat) :
    (r.filter (fun x => decide (cordKind x.1 = K))).isEmpty = true ↔
      K ∉ r.map (fun p => cordKind p.1) := by
  rw [List.isEmpty_iff, List.filter_eq_nil_iff]
  constructor
  · intro h hmem
    rcases List.mem_map.mp hmem with ⟨p, hp, hpk⟩
    have hnp := h p hp
    simp only [decide_eq_true_eq] at hnp
    exact hnp hpk
  · intro h p hp
    simp only [decide_eq_true_eq]
    exact fun hpk => h (List.mem_map.mpr ⟨p, hp, hpk⟩)

theorem buildFilters_groups (r : List (List Char × Int)) (K : Nat) :
    (buildFilters r).filter (fun q => decide (q.kinds = [K])) =
      (if K ∈ r.map (fun p => cordKind p.1) then [filterForKind r K] else []) := by
  rw [buildFilters_filter_kind]
  obtain ⟨_, _, hlook⟩ := recsOf_spec r
  rw [hlook K]
  by_cases hE : (r.filter (fun x => decide (cordKind x.1 = K))).isEmpty = true
  · have hmem := (group_isEmpty_iff r K).mp hE
    rw [if_pos hE, if_neg hmem]
    rfl
  · have hmem : K ∈ r.map (fun p => cordKind p.1) := by
      by_contra hc
      exact hE ((group_isEmpty_iff r K).mpr hc)
    rw [if_neg hE, if_pos hmem]
    rfl

/-- C6: after an update whose Desired Set contains a coordinate not already
in flight, that coordinate is stamped into the In-Flight Set at the current
time, the rebuilt query is applied and the subscription opened, and for
every kind the applied query contains exactly one filter carrying that kind
iff the kind occurs among the in-flight coordinates — that filter holding
the parsed identities of every in-flight coordinate of the kind as authors
and the present discriminators as discriminator-tag values
(`filterForKind`); for a well-formed coordinate the parsed components are
the original kind, identity and discriminator. -/
theorem c6_reconcile_filter (s : LoaderState) (now : Int)
    (kind : Nat) (pubkey : List Char) (d : Option (List Char)) (K : Nat)
    (hp : ∀ c ∈ pubkey, c ≠ ':')
    (hdv : ∀ dv, d = some dv → (∀ c ∈ dv, c ≠ ':') ∧ dv ≠ [])
    (hnd : (s.requested.map Prod.fst).Nodup)
    (hdes : createCoordinate kind pubkey d ∈ s.requestNext)
    (hnew : lookupKey s.requested (createCoordinate kind pubkey d) = none) :
    lookupKey (s.update now).requested (createCoordinate kind pubkey d) = some now ∧
    (s.update now).query = some (buildFilters ((s.update now).requested)) ∧
    (s.update now).subState = SubState.opened ∧
    (buildFilters ((s.update now).requested)).filter (fun q => decide (q.kinds = [K])) =
      (if K ∈ (s.update now).requested.map (fun p => cordKind p.1) then
        [filterForKind ((s.update now).requested) K] else []) ∧
    parseCoordinate (createCoordinate kind pubkey d) = (kind, pubkey, d) := by
  have hmg := mergeDesired_lookup_new now s.requested s.requestNext _ hdes hnew
  have hnd1 := mergeDesired_nodup now s.requested s.requestNext hnd
  have hflag := mergeDesired_flag now s.requested s.requestNext _ hdes hnew
  have hlook : lookupKey (s.update now).requested (createCoordinate kind pubkey d) =
      some now := by
    rw [update_requested, lookupKey_filter _ _ _ now hnd1 hmg]
    have hlt : ¬ now < now - 60 := by omega
    simp [hlt]
  have hmemk := mem_keys_of_lookupKey _ _ _ hlook
  have hlen : 0 < (s.update now).requested.length := by
    cases hreq : (s.update now).requested with
    | nil => rw [hreq] at hmemk; simp at hmemk
    | cons a t => simp
  obtain ⟨hq, hsub⟩ := update_query_opened s now hflag hlen
  exact ⟨hlook, hq, hsub, buildFilters_groups _ K,
    parseCoordinate_createCoordinate kind pubkey d hp hdv⟩

/-- C6 (witness): the reconcile theorem applied to `loaderW3` (coordinate
`"0:a"` desired, nothing in flight) at time 100, checking the kind-0
filter group. -/
theorem c6_reconcile_filter_witness :
    lookupKey (loaderW3.update 100).requested (createCoordinate 0 ['a'] none) = some 100 ∧
    (loaderW3.update 100).query = some (buildFilters ((loaderW3.update 100).requested)) ∧
    (loaderW3.update 100).subState = SubState.opened ∧
    (buildFilters ((loaderW3.update 100).requested)).filter
        (fun q => decide (q.kinds = [0])) =
      (if 0 ∈ (loaderW3.update 100).requested.map (fun p => cordKind p.1) then
        [filterForKind ((loaderW3.update 100).requested) 0] else []) ∧
    parseCoordinate (createCoordinate 0 ['a'] none) = (0, ['a'], none) :=
  c6_reconcile_filter loaderW3 100 0 ['a'] none 0
    (by decide) (fun dv h => Option.noConfusion h) (by decide) (by decide) (by decide)
